import Mathlib

/-!
Verification of the magnet-link download orchestrator ("magnet-player").

The Go sources are shallowly embedded: SQL row updates become pure
functions on a list of task rows, the pipeline (manager.handleTask and
manager.uploadAndCleanup) becomes a function from an environment of
external observations (torrent engine, filesystem, object store, clock)
to the list of task-store writes it performs, and string algorithms
(infoHashFromMagnet, key-prefix construction) are embedded over lists of
characters.  Machine integers (Go int, int64) are modelled as Int: none
of the verified properties involve values anywhere near 2^63, and the
Go code performs no intentional wraparound.  Go float64 wall-clock
durations are modelled as rationals.
-/

namespace Magnet

/-- Task status literals, from internal/domain/task.go (TaskStatus constants). -/
inductive TaskStatus where
  | pending
  | downloading
  | paused
  | downloaded
  | uploading
  | completed
  | failed
deriving DecidableEq, Repr

/-- A row of the tasks table, from internal/domain/task.go (struct Task) and the
tasks schema in internal/repository/sqlite (createTasksTable).  Wall-clock
DATETIME values are abstract Int instants; the nullable columns
downloaded_at and uploaded_at are Option Int. -/
structure Task where
  id : Int
  magnetURI : List Char
  status : TaskStatus
  progress : Int
  speed : Int
  downloadedBytes : Int
  totalSize : Int
  totalPeers : Int
  activePeers : Int
  pendingPeers : Int
  connectedSeeders : Int
  halfOpenPeers : Int
  torrentName : List Char
  localPath : List Char
  s3Location : List Char
  errorMessage : List Char
  createdAt : Int
  updatedAt : Int
  downloadedAt : Option Int
  uploadedAt : Option Int
deriving DecidableEq, Repr

/-- A row of the task_files table, from internal/domain/task.go (struct TaskFile)
and the task_files schema (createTaskFilesTable). -/
structure TaskFileRow where
  id : Int
  taskId : Int
  name : List Char
  path : List Char
  size : Int
  priority : Int
deriving DecidableEq, Repr

/-- The persistent store: the tasks table and the task_files table, each a list
of rows. -/
structure Store where
  tasks : List Task
  taskFiles : List TaskFileRow
deriving DecidableEq, Repr

/-- UPDATE ... WHERE id=? : applies f to every task row whose id matches
(at most one in practice, ids being the primary key), leaves the rest alone.
An UPDATE that matches no row succeeds and changes nothing. -/
def updateRowById (id : Int) (f : Task → Task) (ts : List Task) : List Task :=
  ts.map fun t => if t.id = id then f t else t

/-- TaskRepository.UpdateStatus (sqlite task repository): sets status,
error_message (empty when the caller passes nil) and updated_at. -/
def updateStatus (s : Store) (id : Int) (st : TaskStatus)
    (errMsg : Option (List Char)) (now : Int) : Store :=
  let msg := errMsg.getD []
  let upd : Task → Task := fun t =>
    { t with status := st, errorMessage := msg, updatedAt := now }
  { s with tasks := updateRowById id upd s.tasks }

/-- TaskRepository.UpdateProgress: sets progress, speed, downloaded_bytes,
the five peer counters and updated_at. -/
def updateProgress (s : Store) (id : Int) (progress speed downloaded : Int)
    (totalPeers activePeers pendingPeers connectedSeeders halfOpenPeers : Int)
    (now : Int) : Store :=
  let upd : Task → Task := fun t =>
    { t with progress := progress, speed := speed,
             downloadedBytes := downloaded,
             totalPeers := totalPeers, activePeers := activePeers,
             pendingPeers := pendingPeers,
             connectedSeeders := connectedSeeders,
             halfOpenPeers := halfOpenPeers, updatedAt := now }
  { s with tasks := updateRowById id upd s.tasks }

/-- TaskRepository.UpdateDownloadInfo: sets torrent_name, local_path,
total_size and updated_at. -/
def updateDownloadInfo (s : Store) (id : Int) (name localPath : List Char)
    (totalSize : Int) (now : Int) : Store :=
  let upd : Task → Task := fun t =>
    { t with torrentName := name, localPath := localPath,
             totalSize := totalSize, updatedAt := now }
  { s with tasks := updateRowById id upd s.tasks }

/-- TaskRepository.MarkDownloaded: sets status to downloaded, downloaded_at to
the supplied completion instant and updated_at to now.  The SQL assignment of
downloaded_at is unconditional: there is no null guard. -/
def markDownloaded (s : Store) (id : Int) (completedAt now : Int) : Store :=
  let upd : Task → Task := fun t =>
    { t with status := .downloaded, downloadedAt := some completedAt,
             updatedAt := now }
  { s with tasks := updateRowById id upd s.tasks }

/-- TaskRepository.MarkUploaded: sets status to completed, s3_location,
uploaded_at and updated_at. -/
def markUploaded (s : Store) (id : Int) (s3Location : List Char)
    (uploadedAt now : Int) : Store :=
  let upd : Task → Task := fun t =>
    { t with status := .completed, s3Location := s3Location,
             uploadedAt := some uploadedAt, updatedAt := now }
  { s with tasks := updateRowById id upd s.tasks }

/-- TaskRepository.Get: SELECT ... WHERE id=? returning the first matching row
or the "task not found" error. -/
def getTask (s : Store) (id : Int) : Except (List Char) Task :=
  match s.tasks.find? (fun t => t.id = id) with
  | some t => .ok t
  | none => .error ("task not found".toList)

/-- TaskRepository.Delete: inside one transaction, deletes the task_files rows
of the task, then the task row; if the task row did not exist
(RowsAffected = 0) the transaction is rolled back and the "task not found"
error is returned.  An error therefore leaves the caller's store untouched. -/
def deleteTask (s : Store) (id : Int) : Except (List Char) Store :=
  let afterFiles : Store :=
    { s with taskFiles := s.taskFiles.filter (fun f => f.taskId ≠ id) }
  if s.tasks.any (fun t => t.id = id) then
    .ok { afterFiles with tasks := afterFiles.tasks.filter (fun t => t.id ≠ id) }
  else
    .error ("task not found".toList)

/-- The store visible after TaskRepository.Delete: on error the transaction was
rolled back, so the store is the one from before the call. -/
def deleteTaskRun (s : Store) (id : Int) : Store :=
  match deleteTask s id with
  | .ok s' => s'
  | .error _ => s

/-- TaskFileRepository.ReplaceForTask: transactional delete-then-insert of the
task_files rows of one task. -/
def replaceFiles (s : Store) (id : Int) (files : List TaskFileRow) : Store :=
  { s with taskFiles := s.taskFiles.filter (fun f => f.taskId ≠ id) ++ files }

/-- Comparison used by ORDER BY id ASC. -/
def taskIdLe (a b : Task) : Prop := a.id ≤ b.id

instance : DecidableRel taskIdLe := fun a b => inferInstanceAs (Decidable (a.id ≤ b.id))

instance : IsTotal Task taskIdLe := ⟨fun a b => Int.le_total a.id b.id⟩

instance : IsTrans Task taskIdLe := ⟨fun _ _ _ => Int.le_trans⟩

/-- TaskRepository.ListByStatuses: an empty status list short-circuits to an
empty result; otherwise SELECT ... WHERE status IN (...) ORDER BY id ASC, i.e.
the rows whose status is among the arguments, in ascending id order. -/
def listByStatuses (s : Store) (statuses : List TaskStatus) : List Task :=
  if statuses = [] then []
  else List.insertionSort taskIdLe
    (s.tasks.filter (fun t => decide (t.status ∈ statuses)))

/-- The status set of manager.Resume (internal downloader manager). -/
def resumeStatuses : List TaskStatus :=
  [.pending, .downloading, .downloaded, .uploading]

/-- manager.Resume: loads ListByStatuses(pending, downloading, downloaded,
uploading) and spawns one Pipeline per returned task, in the returned
order. -/
def resumeSpawned (s : Store) : List Task :=
  listByStatuses s resumeStatuses

/-! Character and string helpers.  Go strings are embedded as List Char.
The Go standard-library string helpers used by the repository
(strings.ToLower, ToUpper, TrimSpace, Trim, TrimRight, HasPrefix) are
modelled over the character sets the repository actually feeds them:
case mapping is the ASCII one and the space set is the ASCII whitespace
of unicode.IsSpace plus U+0085 and U+00A0. -/

/-- ASCII lower-casing of one character (strings.ToLower). -/
def charLower (c : Char) : Char :=
  if 'A' ≤ c ∧ c ≤ 'Z' then Char.ofNat (c.toNat + 32) else c

/-- ASCII upper-casing of one character (strings.ToUpper). -/
def charUpper (c : Char) : Char :=
  if 'a' ≤ c ∧ c ≤ 'z' then Char.ofNat (c.toNat - 32) else c

def goToLower (cs : List Char) : List Char := cs.map charLower

def goToUpper (cs : List Char) : List Char := cs.map charUpper

/-- The whitespace characters recognised by unicode.IsSpace in the Latin-1
range: TAB, LF, VT, FF, CR, SP, NEL, NBSP. -/
def spaceChars : List Char :=
  ['\t', '\n', '\x0b', '\x0c', '\r', ' ', '\u0085', ' ']

def isSpaceChar (c : Char) : Bool := decide (c ∈ spaceChars)

/-- Removes the longest suffix of characters satisfying p. -/
def dropWhileRight (p : Char → Bool) (cs : List Char) : List Char :=
  (cs.reverse.dropWhile p).reverse

/-- strings.TrimSpace. -/
def goTrimSpace (cs : List Char) : List Char :=
  dropWhileRight isSpaceChar (cs.dropWhile isSpaceChar)

/-- strings.TrimRight(s, "=") as used on base32 candidates. -/
def goTrimRightEq (cs : List Char) : List Char :=
  dropWhileRight (· == '=') cs

/-- strings.Trim(s, "/") as used on object-store key prefixes. -/
def goTrimSlash (cs : List Char) : List Char :=
  dropWhileRight (· == '/') (cs.dropWhile (· == '/'))

/-- strings.HasPrefix. -/
def goHasPfx (p cs : List Char) : Bool := p.isPrefixOf cs

/-- The value of one hexadecimal digit (encoding/hex), accepting both cases. -/
def hexVal (c : Char) : Option Nat :=
  if '0' ≤ c ∧ c ≤ '9' then some (c.toNat - '0'.toNat)
  else if 'a' ≤ c ∧ c ≤ 'f' then some (c.toNat - 'a'.toNat + 10)
  else if 'A' ≤ c ∧ c ≤ 'F' then some (c.toNat - 'A'.toNat + 10)
  else none

/-- hex.DecodeString: succeeds exactly on an even number of hex digits,
pairing them into bytes. -/
def goHexDecode : List Char → Option (List Nat)
  | [] => some []
  | [_] => none
  | c1 :: c2 :: rest =>
    match hexVal c1, hexVal c2, goHexDecode rest with
    | some hi, some lo, some bs => some ((hi * 16 + lo) :: bs)
    | _, _, _ => none

/-- The lowercase hexadecimal digit of value d < 16 (encoding/hex output
alphabet). -/
def hexDigitChar (d : Nat) : Char :=
  if d < 10 then Char.ofNat ('0'.toNat + d) else Char.ofNat ('a'.toNat + d - 10)

/-- hex.EncodeToString: two lowercase hex digits per byte. -/
def hexEncode (bytes : List Nat) : List Char :=
  bytes.flatMap fun b => [hexDigitChar (b / 16), hexDigitChar (b % 16)]

/-- The RFC 4648 standard base32 alphabet (base32.StdEncoding). -/
def b32Alphabet : List Char := "ABCDEFGHIJKLMNOPQRSTUVWXYZ234567".toList

def b32Char (d : Nat) : Char := b32Alphabet.getD d '?'

/-- The 5-bit value of one base32 character, none when the character is not in
the alphabet. -/
def b32Val (c : Char) : Option Nat := b32Alphabet.findIdx? (· == c)

/-- Decodes every character through f, failing if any character fails. -/
def traverseOpt (f : Char → Option Nat) : List Char → Option (List Nat)
  | [] => some []
  | c :: cs =>
    match f c, traverseOpt f cs with
    | some v, some vs => some (v :: vs)
    | _, _ => none

/-- Big-endian digit-string value: fold of acc * base + digit. -/
def digitsToNat (base : Nat) (ds : List Nat) : Nat :=
  ds.foldl (fun a d => a * base + d) 0

/-- The len big-endian base-base digits of v (most significant first,
truncating v to len digits). -/
def natToBE (base : Nat) : Nat → Nat → List Nat
  | 0, _ => []
  | len + 1, v => natToBE base len (v / base) ++ [v % base]

/-- base32.StdEncoding.WithPadding(NoPadding).DecodeString, at the level of
bits: an input of n characters is invalid when n mod 8 is 1, 3 or 6 or when
some character is outside the alphabet; otherwise the 5n-bit big-endian bit
string of the character values is cut to its leading floor(5n/8) bytes
(the trailing 5n mod 8 bits are discarded, as the Go decoder does for a
final partial quantum). -/
def goBase32Decode (cs : List Char) : Option (List Nat) :=
  if cs.length % 8 = 1 ∨ cs.length % 8 = 3 ∨ cs.length % 8 = 6 then none
  else
    match traverseOpt b32Val cs with
    | none => none
    | some ds =>
      let nbits := 5 * cs.length
      some (natToBE 256 (nbits / 8) (digitsToNat 32 ds / 2 ^ (nbits % 8)))

def urnBtih : List Char := "urn:btih:".toList

def magnetScheme : List Char := "magnet".toList

/-- The body of the xt loop of infoHashFromMagnet (internal/http/api.go): for
one xt value, none means this value is skipped (continue).  A 40-character
value that hex-decodes is returned lower-cased; otherwise the value is
upper-cased, stripped of trailing padding and base32-decoded, and accepted
only when exactly 20 bytes result, returned as lowercase hex. -/
def infoHashFromXt (xt : List Char) : Option (List Char) :=
  if goHasPfx urnBtih (goToLower xt) then
    let hash := goTrimSpace (xt.drop urnBtih.length)
    if hash = [] then none
    else
      let hexTry : Option (List Char) :=
        if hash.length = 40 ∧ (goHexDecode hash).isSome then some (goToLower hash)
        else none
      match hexTry with
      | some h => some h
      | none =>
        match goBase32Decode (goTrimRightEq (goToUpper hash)) with
        | some decoded =>
          if decoded.length = 20 then some (hexEncode decoded) else none
        | none => none
  else none

/-- The xt loop of infoHashFromMagnet: first accepted xt value wins; if no
value is accepted the function returns the "btih magnet xt not present"
error (modelled as none). -/
def infoHashFromXts : List (List Char) → Option (List Char)
  | [] => none
  | xt :: rest =>
    match infoHashFromXt xt with
    | some h => some h
    | none => infoHashFromXts rest

/-- infoHashFromMagnet (internal/http/api.go), taken at the output of Go's
url.Parse and url.ParseQuery (standard library, external to the repository):
the scheme must be magnet, and the list of xt query values is scanned by the
xt loop. -/
def infoHashFromMagnet (scheme : List Char) (xts : List (List Char)) : Option (List Char) :=
  if scheme = magnetScheme then infoHashFromXts xts else none

/-- The unpadded standard base32 rendering of a 20-byte hash: the 32
big-endian 5-bit digits of its 160-bit value. -/
def b32Encode20 (bytes : List Nat) : List Char :=
  (natToBE 32 32 (digitsToNat 256 bytes)).map b32Char

/-- The decimal digits of n. -/
def natDecimal (n : Nat) : List Char :=
  if _h : n < 10 then [hexDigitChar n]
  else natDecimal (n / 10) ++ [hexDigitChar (n % 10)]
termination_by n
decreasing_by exact Nat.div_lt_self (by omega) (by omega)

/-- fmt %d of a Go integer. -/
def intDecimal (i : Int) : List Char :=
  if i < 0 then '-' :: natDecimal (-i).toNat else natDecimal i.toNat

/-- The per-task object-key segment task-id (fmt.Sprintf task-%d). -/
def taskSeg (id : Int) : List Char := "task-".toList ++ intDecimal id

/-- The key prefix handed to UploadDirectory by manager.uploadAndCleanup:
the configured prefix trimmed of slashes, with task-id appended, or just
task-id when the trimmed prefix is empty. -/
def effectiveKeyPfx (configured : List Char) (id : Int) : List Char :=
  let p := goTrimSlash configured
  if p = [] then taskSeg id else p ++ '/' :: taskSeg id

/-- The URL returned by S3Service.UploadDirectory (internal/storage/s3.go):
the supplied key prefix is trimmed of slashes, an empty result is replaced by
task-pid, and the return value is s3://bucket/keyPrefix. -/
def uploadDirectoryUrl (bucket keyPfx : List Char) (pid : Int) : List Char :=
  let kp := goTrimSlash keyPfx
  let kp2 := if kp = [] then "task-".toList ++ intDecimal pid else kp
  "s3://".toList ++ bucket ++ '/' :: kp2

/-! The status-loop arithmetic of manager.handleTask (internal downloader
manager), one tick of the download progress loop. -/

/-- progress computed on one tick: bytesCompleted * 100 / totalLength in Go
int64 arithmetic (truncated division) when totalLength is positive, else 0. -/
def goProgress (bytesCompleted totalLength : Int) : Int :=
  if totalLength > 0 then (bytesCompleted * 100).tdiv totalLength else 0

/-- speed computed on one tick.  elapsed is the float64 wall-clock delta in
seconds since the previous tick, modelled as a rational.  The Go code guards
the division with elapsed > 0 on the float but divides by int64(elapsed),
the value truncated to an integer: when 0 < elapsed < 1 that divisor is 0
and the int64 division panics at run time, modelled here as none.  When the
guard fails (elapsed ≤ 0) speed keeps its zero initialisation. -/
def goSpeed (bytesCompleted lastBytes : Int) (elapsed : ℚ) : Option Int :=
  if elapsed > 0 then
    let e : Int := ⌊elapsed⌋
    if e = 0 then none else some ((bytesCompleted - lastBytes).tdiv e)
  else some 0

/-! Trace semantics of the Pipeline.  A Pipeline run is embedded as the list
of task-store writes it performs; everything external (torrent engine,
filesystem, object store, wall clock, cancellation) is an environment of
observations consumed in program order.  Each write carries the wall-clock
instant the code would read for updated_at. -/

/-- One task-store write, tagged with the repository method performing it. -/
inductive StoreOp where
  | updStatus (id : Int) (st : TaskStatus) (errMsg : Option (List Char)) (now : Int)
  | updDownloadInfo (id : Int) (name localPath : List Char) (totalSize now : Int)
  | updProgress (id progress speed downloaded : Int)
      (totalPeers activePeers pendingPeers connectedSeeders halfOpenPeers : Int)
      (now : Int)
  | markDl (id completedAt now : Int)
  | markUl (id : Int) (s3Location : List Char) (uploadedAt now : Int)
  | replFiles (id : Int) (files : List TaskFileRow)
deriving DecidableEq, Repr

/-- Applies one write to the store through the repository functions above. -/
def applyOp (s : Store) : StoreOp → Store
  | .updStatus id st em now => updateStatus s id st em now
  | .updDownloadInfo id name localPath totalSize now =>
      updateDownloadInfo s id name localPath totalSize now
  | .updProgress id progress speed downloaded tp ap pp cs hop now =>
      updateProgress s id progress speed downloaded tp ap pp cs hop now
  | .markDl id completedAt now => markDownloaded s id completedAt now
  | .markUl id loc uploadedAt now => markUploaded s id loc uploadedAt now
  | .replFiles id files => replaceFiles s id files

def applyTrace (s : Store) (ops : List StoreOp) : Store :=
  ops.foldl applyOp s

/-- Does a write set the status to failed (a failTask transition)? -/
def isFailedWrite : StoreOp → Bool
  | .updStatus _ st _ _ => st = .failed
  | _ => false

/-- Observations of one iteration of the download status loop: whether
cancellation won the select, the engine counters sampled from the torrent
handle, the wall-clock delta since the previous tick, and the instant used
for the persisting writes of this tick. -/
structure TickObs where
  cancelled : Bool
  bytesCompleted : Int
  bytesMissing : Int
  elapsed : ℚ
  totalPeers : Int
  activePeers : Int
  pendingPeers : Int
  connectedSeeders : Int
  halfOpenPeers : Int
  now : Int
deriving DecidableEq, Repr

/-- External observations of the upload phase (manager.uploadAndCleanup):
stat results for the stored path and the torrent-name fallback (none =
missing, some b = exists with isDir = b), success of staging-directory
creation and of the rename-or-copy staging step, the outcome of
UploadDirectory, and the wall-clock instant of this phase's writes. -/
structure UploadEnv where
  statMainIsDir : Option Bool
  statFallbackIsDir : Option Bool
  mkdirOk : Bool
  stageOk : Bool
  uploadResult : Except (List Char) (List Char)
  now : Int
deriving Repr

/-- External observations of the download phase through metadata resolution:
the AddMagnet outcome, whether cancellation fired before GotInfo, whether
Info() was non-nil, the resolved metainfo, the task-file list materialised
from the torrent, the loop tick observations, and the wall-clock instants of
the entry and metadata writes. -/
structure DlEnv where
  statusNow : Int
  addMagnet : Except (List Char) Unit
  metaCancelled : Bool
  infoPresent : Bool
  totalLength : Int
  bestName : List Char
  infoNow : Int
  files : List TaskFileRow
  ticks : List TickObs
deriving Repr

/-- The tail of manager.uploadAndCleanup from the UploadDirectory call on:
an upload error fails the task with the wrapped message, success persists
MarkUploaded with the returned destination. -/
def uploadFinishWrites (taskId : Int) (e : UploadEnv) : List StoreOp :=
  match e.uploadResult with
  | .error msg => [.updStatus taskId .failed (some ("upload: ".toList ++ msg)) e.now]
  | .ok dest => [.markUl taskId dest e.now e.now]

/-- manager.uploadAndCleanup after the source path resolved to lp with kind
isDir: a directory goes straight to the upload; a regular file is staged
into dataRoot/task-id (failing the task if MkdirAll or both rename and copy
fail), the staging directory is persisted as the new local path, and the
upload proceeds. -/
def uploadAfterStatWrites (dataRoot : List Char) (task : Task) (e : UploadEnv)
    (isDir : Bool) : List StoreOp :=
  if isDir then uploadFinishWrites task.id e
  else if ¬e.mkdirOk then
    [.updStatus task.id .failed (some ("create staging dir".toList)) e.now]
  else if ¬e.stageOk then
    [.updStatus task.id .failed (some ("prepare upload data".toList)) e.now]
  else
    .updDownloadInfo task.id task.torrentName
      (dataRoot ++ '/' :: taskSeg task.id) task.totalSize e.now ::
    uploadFinishWrites task.id e

/-- The write trace of manager.uploadAndCleanup: transition to uploading,
resolve the source path (stored local path, else dataRoot/task-id; on a
failed stat fall back to dataRoot/torrentName; fail with local data missing
when neither exists), stage single files, compute the key prefix, upload and
finalise. -/
def uploadWrites (dataRoot : List Char) (task : Task) (e : UploadEnv) : List StoreOp :=
  .updStatus task.id .uploading none e.now ::
  (let lp0 := if task.localPath = [] then dataRoot ++ '/' :: taskSeg task.id
              else task.localPath
   match e.statMainIsDir with
   | some isDir => uploadAfterStatWrites dataRoot task e isDir
   | none =>
     let fb := dataRoot ++ '/' :: task.torrentName
     if fb ≠ [] ∧ fb ≠ lp0 then
       match e.statFallbackIsDir with
       | some isDir => uploadAfterStatWrites dataRoot { task with localPath := fb } e isDir
       | none => [.updStatus task.id .failed (some ("local data missing".toList)) e.now]
     else [.updStatus task.id .failed (some ("local data missing".toList)) e.now])

/-- The download status loop of manager.handleTask: each tick either observes
cancellation (exit with no further writes), or persists progress and speed
computed by goProgress and goSpeed (a goSpeed divide-by-zero panic, none,
ends the trace) and, once progress reaches 100 or no bytes are missing,
persists MarkDownloaded and continues with the upload phase trace. -/
def downloadLoopWrites (taskId totalLength lastBytes : Int)
    (ticks : List TickObs) (uploadRest : List StoreOp) : List StoreOp :=
  match ticks with
  | [] => []
  | obs :: rest =>
    if obs.cancelled then []
    else
      let progress := goProgress obs.bytesCompleted totalLength
      match goSpeed obs.bytesCompleted lastBytes obs.elapsed with
      | none => []
      | some speed =>
        .updProgress taskId progress speed obs.bytesCompleted obs.totalPeers
          obs.activePeers obs.pendingPeers obs.connectedSeeders obs.halfOpenPeers
          obs.now ::
        if progress ≥ 100 ∨ obs.bytesMissing = 0 then
          .markDl taskId obs.now obs.now :: uploadRest
        else downloadLoopWrites taskId totalLength obs.bytesCompleted rest uploadRest

/-- The write trace of manager.handleTask: the entry switch on the persisted
status (completed returns, downloaded and uploading resume the upload phase),
then the download phase: transition to downloading with a nil error, AddMagnet
(failure fails the task), await metadata or cancellation (cancellation exits
with no further write), require Info() non-nil, persist the download info and
the file list, and run the status loop, entering the upload phase on
completion with the local path set to dataRoot/bestName. -/
def handleTaskWrites (dataRoot : List Char) (task : Task) (env : DlEnv)
    (ue : UploadEnv) : List StoreOp :=
  match task.status with
  | .completed => []
  | .downloaded => uploadWrites dataRoot task ue
  | .uploading => uploadWrites dataRoot task ue
  | _ =>
    .updStatus task.id .downloading none env.statusNow ::
    (match env.addMagnet with
     | .error msg =>
       [.updStatus task.id .failed (some ("add magnet: ".toList ++ msg)) env.statusNow]
     | .ok _ =>
       if env.metaCancelled then []
       else if ¬env.infoPresent then
         [.updStatus task.id .failed (some ("missing torrent info".toList)) env.infoNow]
       else
         .updDownloadInfo task.id env.bestName (dataRoot ++ '/' :: env.bestName)
           env.totalLength env.infoNow ::
         .replFiles task.id env.files ::
         downloadLoopWrites task.id env.totalLength 0 env.ticks
           (uploadWrites dataRoot
             { task with status := .downloaded,
                         localPath := dataRoot ++ '/' :: env.bestName } ue))

/-! The Scheduler's admission control (manager.spawnTask and NewManager).
The semaphore is a buffered channel of capacity MaxConcurrent; a spawned
Pipeline goroutine waits on the select of cancellation versus a semaphore
send and runs handleTask only after the send succeeds, releasing the slot
when it finishes. -/

/-- NewManager: a non-positive configured MaxConcurrent defaults to 3. -/
def normMaxConcurrent (cfg : Int) : Int :=
  if cfg ≤ 0 then 3 else cfg

/-- Scheduler state: goroutines blocked in the spawn select, and Pipelines
currently inside handleTask. -/
structure SchedState where
  waiting : Nat
  running : Nat
deriving DecidableEq, Repr

/-- The events of the spawn protocol with a semaphore of capacity cap:
spawnTask adds a waiter; a waiter whose semaphore send succeeds (possible
only below capacity) starts running; a waiter whose cancellation wins the
select exits without running; a finished Pipeline releases its slot. -/
inductive SchedStep (cap : Nat) : SchedState → SchedState → Prop
  | spawn (w r : Nat) : SchedStep cap ⟨w, r⟩ ⟨w + 1, r⟩
  | acquire (w r : Nat) (h : r < cap) : SchedStep cap ⟨w + 1, r⟩ ⟨w, r + 1⟩
  | cancelWaiting (w r : Nat) : SchedStep cap ⟨w + 1, r⟩ ⟨w, r⟩
  | finish (w r : Nat) : SchedStep cap ⟨w, r + 1⟩ ⟨w, r⟩

/-- States reachable from the idle scheduler. -/
inductive SchedReachable (cap : Nat) : SchedState → Prop
  | init : SchedReachable cap ⟨0, 0⟩
  | step {s s' : SchedState} :
      SchedReachable cap s → SchedStep cap s s' → SchedReachable cap s'

/-- A concrete task row used to evaluate the claims on explicit inputs. -/
def sampleTask : Task :=
  { id := 1, magnetURI := [], status := .downloading, progress := 0, speed := 0,
    downloadedBytes := 0, totalSize := 0, totalPeers := 0, activePeers := 0,
    pendingPeers := 0, connectedSeeders := 0, halfOpenPeers := 0,
    torrentName := [], localPath := [], s3Location := [], errorMessage := [],
    createdAt := 0, updatedAt := 0, downloadedAt := none, uploadedAt := none }

/-- A concrete one-task store used to evaluate the claims on explicit inputs. -/
def sampleStore : Store := ⟨[sampleTask], [⟨4, 1, [], [], 3, 1⟩]⟩

/-- An UPDATE whose WHERE id matches no row leaves the table unchanged. -/
theorem updateRowById_of_absent (id : Int) (f : Task → Task) (ts : List Task)
    (h : ∀ t ∈ ts, t.id ≠ id) : updateRowById id f ts = ts := by
  unfold updateRowById
  calc ts.map (fun t => if t.id = id then f t else t)
      = ts.map (fun t => t) := List.map_congr_left (fun t ht => by simp [h t ht])
    _ = ts := List.map_id ts

/-- Claim C1, counterexample: MarkDownloaded does not test downloaded_at for
null.  On a store whose single task has id 1 and downloaded_at null, calling
MarkDownloaded at completion instant 5 sets downloaded_at to 5, and a second
call at completion instant 7 overwrites it to 7: downloaded_at is written
twice over this sequence of calls, and the overwritten values differ. -/
theorem claim_C1_counterexample :
    (markDownloaded sampleStore 1 5 6).tasks.map Task.downloadedAt = [some 5] ∧
    (markDownloaded (markDownloaded sampleStore 1 5 6) 1 7 8).tasks.map
      Task.downloadedAt = [some 7] ∧
    (some (5 : Int)) ≠ some 7 := by
  refine ⟨rfl, rfl, by decide⟩

/-- Claim C1, amended: MarkDownloaded sets the status to Downloaded and
unconditionally records downloaded_at = completedAt on every call,
overwriting any earlier value (last write wins); rows with other ids are
untouched.  It does not test whether downloaded_at was null, so over a
sequence of calls downloaded_at is written once per call, not at most
once. -/
theorem claim_C1 (s : Store) (id c1 n1 c2 n2 : Int) (t : Task)
    (ht : t ∈ (markDownloaded s id c2 n2).tasks) :
    (t.id = id → t.status = .downloaded ∧ t.downloadedAt = some c2) ∧
    (t.id ≠ id → t ∈ s.tasks) ∧
    markDownloaded (markDownloaded s id c1 n1) id c2 n2 =
      markDownloaded s id c2 n2 := by
  refine ⟨?_, ?_, ?_⟩
  · intro hid
    simp only [markDownloaded, updateRowById, List.mem_map] at ht
    obtain ⟨t0, _ht0, rfl⟩ := ht
    by_cases h : t0.id = id
    · simp [h]
    · simp only [if_neg h] at hid ⊢
      exact absurd hid h
  · intro hid
    simp only [markDownloaded, updateRowById, List.mem_map] at ht
    obtain ⟨t0, ht0, rfl⟩ := ht
    by_cases h : t0.id = id
    · simp only [if_pos h] at hid
      exact absurd h hid
    · simpa [if_neg h] using ht0
  · simp only [markDownloaded, updateRowById, List.map_map]
    refine congrArg (fun l => Store.mk l s.taskFiles) ?_
    refine List.map_congr_left (fun t0 _ => ?_)
    by_cases h : t0.id = id
    · simp [Function.comp, h]
    · simp [Function.comp, h]

/-- The task of sampleStore after MarkDownloaded at completion instant 7. -/
def sampleTaskDl : Task :=
  { sampleTask with status := .downloaded, downloadedAt := some 7, updatedAt := 8 }

/-- Witness for the amended claim C1 at a concrete input. -/
theorem claim_C1_witness :
    ((sampleTaskDl.id = 1 →
        sampleTaskDl.status = .downloaded ∧ sampleTaskDl.downloadedAt = some 7) ∧
     (sampleTaskDl.id ≠ 1 → sampleTaskDl ∈ sampleStore.tasks) ∧
     markDownloaded (markDownloaded sampleStore 1 5 6) 1 7 8 =
       markDownloaded sampleStore 1 7 8) :=
  claim_C1 sampleStore 1 5 6 7 8 sampleTaskDl (by decide)

/-- Claim C8: Delete removes the task row and every task_files row of the
task in one transaction; when no row has the requested id it returns the
task-not-found error, and the rolled-back transaction leaves the store
exactly as it was. -/
theorem claim_C8 (s : Store) (id : Int) :
    ((∀ t ∈ s.tasks, t.id ≠ id) →
       deleteTask s id = .error ("task not found".toList) ∧
       deleteTaskRun s id = s) ∧
    (∀ t ∈ s.tasks, t.id = id →
       deleteTask s id =
         .ok { tasks := s.tasks.filter (fun u => u.id ≠ id),
               taskFiles := s.taskFiles.filter (fun f => f.taskId ≠ id) } ∧
       deleteTaskRun s id =
         { tasks := s.tasks.filter (fun u => u.id ≠ id),
           taskFiles := s.taskFiles.filter (fun f => f.taskId ≠ id) }) := by
  constructor
  · intro h
    have hany : s.tasks.any (fun t => decide (t.id = id)) = false := by
      simp only [List.any_eq_false, decide_eq_true_eq]
      exact h
    constructor
    · simp [deleteTask, hany]
    · simp [deleteTaskRun, deleteTask, hany]
  · intro t ht hid
    have hany : s.tasks.any (fun t => decide (t.id = id)) = true := by
      simp only [List.any_eq_true, decide_eq_true_eq]
      exact ⟨t, ht, hid⟩
    constructor
    · simp [deleteTask, hany]
    · simp [deleteTaskRun, deleteTask, hany]

/-- Witness for claim C8 at a concrete input: sampleStore holds task id 1
with one task_files row; deleting id 2 errors and changes nothing, deleting
id 1 removes both rows. -/
theorem claim_C8_witness :
    (deleteTask sampleStore 2 = .error ("task not found".toList) ∧
     deleteTaskRun sampleStore 2 = sampleStore) ∧
    (deleteTask sampleStore 1 =
       .ok { tasks := sampleStore.tasks.filter (fun u => u.id ≠ 1),
             taskFiles := sampleStore.taskFiles.filter (fun f => f.taskId ≠ 1) } ∧
     deleteTaskRun sampleStore 1 =
       { tasks := sampleStore.tasks.filter (fun u => u.id ≠ 1),
         taskFiles := sampleStore.taskFiles.filter (fun f => f.taskId ≠ 1) }) :=
  ⟨(claim_C8 sampleStore 2).1 (by decide),
   (claim_C8 sampleStore 1).2 sampleTask (by decide) (by decide)⟩

/-- Claim C10: for an id with no task row, each of UpdateStatus,
UpdateProgress, UpdateDownloadInfo, MarkDownloaded and MarkUploaded succeeds
(these are total functions on the store, mirroring the Go methods that never
inspect RowsAffected) and leaves the store unchanged, while Get and Delete
are the operations that report the task-not-found error. -/
theorem claim_C10 (s : Store) (id : Int) (st : TaskStatus) (em : Option (List Char))
    (progress speed downloaded tp ap pp cs hop : Int) (name lp loc : List Char)
    (totalSize completedAt uploadedAt now : Int)
    (h : ∀ t ∈ s.tasks, t.id ≠ id) :
    updateStatus s id st em now = s ∧
    updateProgress s id progress speed downloaded tp ap pp cs hop now = s ∧
    updateDownloadInfo s id name lp totalSize now = s ∧
    markDownloaded s id completedAt now = s ∧
    markUploaded s id loc uploadedAt now = s ∧
    getTask s id = .error ("task not found".toList) ∧
    deleteTask s id = .error ("task not found".toList) := by
  have hfind : s.tasks.find? (fun t => decide (t.id = id)) = none := by
    simp only [List.find?_eq_none, decide_eq_true_eq]
    exact h
  have hany : s.tasks.any (fun t => decide (t.id = id)) = false := by
    simp only [List.any_eq_false, decide_eq_true_eq]
    exact h
  refine ⟨?_, ?_, ?_, ?_, ?_, ?_, ?_⟩
  · simp [updateStatus, updateRowById_of_absent id _ _ h]
  · simp [updateProgress, updateRowById_of_absent id _ _ h]
  · simp [updateDownloadInfo, updateRowById_of_absent id _ _ h]
  · simp [markDownloaded, updateRowById_of_absent id _ _ h]
  · simp [markUploaded, updateRowById_of_absent id _ _ h]
  · simp [getTask, hfind]
  · simp [deleteTask, hany]

/-- Witness for claim C10 at a concrete input: id 2 has no row in
sampleStore. -/
theorem claim_C10_witness :
    updateStatus sampleStore 2 .failed (some ("x".toList)) 9 = sampleStore ∧
    updateProgress sampleStore 2 50 10 20 1 2 3 4 5 9 = sampleStore ∧
    updateDownloadInfo sampleStore 2 ("n".toList) ("p".toList) 6 9 = sampleStore ∧
    markDownloaded sampleStore 2 7 9 = sampleStore ∧
    markUploaded sampleStore 2 ("s".toList) 8 9 = sampleStore ∧
    getTask sampleStore 2 = .error ("task not found".toList) ∧
    deleteTask sampleStore 2 = .error ("task not found".toList) :=
  claim_C10 sampleStore 2 .failed (some ("x".toList)) 50 10 20 1 2 3 4 5
    ("n".toList) ("p".toList) ("s".toList) 6 7 8 9 (by decide)

/-- Claim C5: the resume sweep spawns a Pipeline exactly for the persisted
tasks whose status is pending, downloading, downloaded or uploading (the
membership equivalence), the dispatch list is ascending in id (pairwise
ordered, as ListByStatuses orders by id ASC), and the swept status set is
exactly those four statuses. -/
theorem claim_C5 (s : Store) :
    (∀ t, t ∈ resumeSpawned s ↔ t ∈ s.tasks ∧ t.status ∈ resumeStatuses) ∧
    List.Pairwise taskIdLe (resumeSpawned s) ∧
    resumeStatuses = [.pending, .downloading, .downloaded, .uploading] := by
  refine ⟨?_, ?_, rfl⟩
  · intro t
    have hne : resumeStatuses ≠ [] := by simp [resumeStatuses]
    have hperm := List.perm_insertionSort taskIdLe
      (s.tasks.filter (fun t => decide (t.status ∈ resumeStatuses)))
    rw [resumeSpawned, listByStatuses, if_neg hne, hperm.mem_iff, List.mem_filter]
    simp
  · have hne : resumeStatuses ≠ [] := by simp [resumeStatuses]
    rw [resumeSpawned, listByStatuses, if_neg hne]
    exact List.sorted_insertionSort taskIdLe _

/-- Claim C9: with the semaphore capacity obtained from the configured
MaxConcurrent (defaulting to 3 when the configuration is zero or negative),
every reachable scheduler state has at most capacity-many Pipelines inside
handleTask; the only event that increases the running count is a semaphore
acquisition, which requires a free slot; and a waiter cancelled before
acquiring exits without ever running. -/
theorem claim_C9 (cfg : Int) (s : SchedState)
    (h : SchedReachable (normMaxConcurrent cfg).toNat s) :
    s.running ≤ (normMaxConcurrent cfg).toNat ∧
    (cfg ≤ 0 → normMaxConcurrent cfg = 3) ∧
    (0 < cfg → normMaxConcurrent cfg = cfg) ∧
    (∀ s1 s2 : SchedState, SchedStep (normMaxConcurrent cfg).toNat s1 s2 →
       s2.running = s1.running + 1 → s1.running < (normMaxConcurrent cfg).toNat) ∧
    (∀ s1 s2 : SchedState, SchedStep (normMaxConcurrent cfg).toNat s1 s2 →
       s2.waiting + 1 = s1.waiting → s2.running = s1.running ∨
         s2.running = s1.running + 1) := by
  refine ⟨?_, ?_, ?_, ?_, ?_⟩
  · induction h with
    | init => exact Nat.zero_le _
    | step _ hstep ih =>
      cases hstep with
      | spawn w r => exact ih
      | acquire w r hlt => exact hlt
      | cancelWaiting w r => exact ih
      | finish w r => exact Nat.le_of_succ_le ih
  · intro hc
    simp [normMaxConcurrent, if_pos hc]
  · intro hc
    simp [normMaxConcurrent, if_neg (by omega : ¬cfg ≤ 0)]
  · intro s1 s2 hstep heq
    cases hstep with
    | spawn w r =>
      have h' : r = r + 1 := heq
      omega
    | acquire w r hlt => exact hlt
    | cancelWaiting w r =>
      have h' : r = r + 1 := heq
      omega
    | finish w r =>
      have h' : r = r + 1 + 1 := heq
      omega
  · intro s1 s2 hstep hw
    cases hstep with
    | spawn w r => exact Or.inl rfl
    | acquire w r hlt => exact Or.inr rfl
    | cancelWaiting w r => exact Or.inl rfl
    | finish w r =>
      have h' : w + 1 = w := hw
      omega

/-- Witness for claim C9 at a concrete input: with MaxConcurrent configured
as 0 (so capacity 3), the state reached by spawning one task and acquiring
one slot has one running Pipeline, within the bound. -/
theorem claim_C9_witness :
    (SchedState.mk 0 1).running ≤ (normMaxConcurrent 0).toNat ∧
    ((0 : Int) ≤ 0 → normMaxConcurrent 0 = 3) ∧
    ((0 : Int) < 0 → normMaxConcurrent 0 = 0) ∧
    (∀ s1 s2 : SchedState, SchedStep (normMaxConcurrent 0).toNat s1 s2 →
       s2.running = s1.running + 1 → s1.running < (normMaxConcurrent 0).toNat) ∧
    (∀ s1 s2 : SchedState, SchedStep (normMaxConcurrent 0).toNat s1 s2 →
       s2.waiting + 1 = s1.waiting → s2.running = s1.running ∨
         s2.running = s1.running + 1) :=
  claim_C9 0 ⟨0, 1⟩
    (SchedReachable.step (SchedReachable.step SchedReachable.init
      (SchedStep.spawn 0 0)) (SchedStep.acquire 0 0 (by decide)))

/-- Any task row selected by an UpdateStatus write with a nil error message
ends with the written status and an empty error message. -/
theorem updateStatus_none_mem (s : Store) (id : Int) (st : TaskStatus) (now : Int)
    (t : Task) (ht : t ∈ (updateStatus s id st none now).tasks) (hid : t.id = id) :
    t.status = st ∧ t.errorMessage = [] := by
  simp only [updateStatus, updateRowById, Option.getD, List.mem_map] at ht
  obtain ⟨t0, _ht0, rfl⟩ := ht
  by_cases h : t0.id = id
  · simp [h]
  · simp only [if_neg h] at hid ⊢
    exact absurd hid h

/-- Claim C2: on entry the Pipeline branches on the persisted status alone.
A completed task yields an empty write trace, so the store is untouched; a
downloaded or uploading task yields exactly the upload-phase trace (no
download-phase write precedes it); any other status yields a trace whose
first write is the transition to downloading with a nil error message, and
applying that first write leaves the task downloading with its error message
cleared. -/
theorem claim_C2 (dataRoot : List Char) (task : Task) (env : DlEnv)
    (ue : UploadEnv) (s : Store) (t : Task) :
    (task.status = .completed → handleTaskWrites dataRoot task env ue = [] ∧
       applyTrace s (handleTaskWrites dataRoot task env ue) = s) ∧
    (task.status = .downloaded ∨ task.status = .uploading →
       handleTaskWrites dataRoot task env ue = uploadWrites dataRoot task ue) ∧
    (task.status ≠ .completed → task.status ≠ .downloaded →
     task.status ≠ .uploading →
       (handleTaskWrites dataRoot task env ue).head? =
         some (.updStatus task.id .downloading none env.statusNow) ∧
       (t ∈ (updateStatus s task.id .downloading none env.statusNow).tasks →
          t.id = task.id → t.status = .downloading ∧ t.errorMessage = [])) := by
  refine ⟨?_, ?_, ?_⟩
  · intro hc
    cases task; cases hc
    exact ⟨rfl, rfl⟩
  · intro hc
    rcases hc with hc | hc <;> (cases task; cases hc; rfl)
  · intro h1 h2 h3
    refine ⟨?_, fun ht hid => updateStatus_none_mem s task.id .downloading
      env.statusNow t ht hid⟩
    rcases task with ⟨id, m, st, _, _, _, _, _, _, _, _, _, _, _, _, _, _, _, _, _⟩
    cases st <;> first
      | rfl
      | (exact absurd rfl h1)
      | (exact absurd rfl h2)
      | (exact absurd rfl h3)

/-- The task of sampleStore after the downloading transition at instant 11. -/
def sampleTaskDlg : Task :=
  { sampleTask with status := .downloading, errorMessage := [], updatedAt := 11 }

/-- A download-phase environment observing cancellation before metadata. -/
def sampleDlEnv : DlEnv :=
  { statusNow := 11, addMagnet := .ok (), metaCancelled := true,
    infoPresent := false, totalLength := 0, bestName := [], infoNow := 12,
    files := [], ticks := [] }

/-- An upload-phase environment (unused by the cancelled run). -/
def sampleUploadEnv : UploadEnv :=
  { statMainIsDir := none, statFallbackIsDir := none, mkdirOk := true,
    stageOk := true, uploadResult := .error [], now := 13 }

/-- Witness for claim C2 at a concrete input: sampleTask is downloading, so
the entry branch takes the download phase and its first write is the
downloading transition with a nil error. -/
theorem claim_C2_witness :
    (sampleTask.status = .completed →
       handleTaskWrites [] sampleTask sampleDlEnv sampleUploadEnv = [] ∧
       applyTrace sampleStore
         (handleTaskWrites [] sampleTask sampleDlEnv sampleUploadEnv) =
           sampleStore) ∧
    (sampleTask.status = .downloaded ∨ sampleTask.status = .uploading →
       handleTaskWrites [] sampleTask sampleDlEnv sampleUploadEnv =
         uploadWrites [] sampleTask sampleUploadEnv) ∧
    (sampleTask.status ≠ .completed → sampleTask.status ≠ .downloaded →
     sampleTask.status ≠ .uploading →
       (handleTaskWrites [] sampleTask sampleDlEnv sampleUploadEnv).head? =
         some (.updStatus sampleTask.id .downloading none sampleDlEnv.statusNow) ∧
       (sampleTaskDlg ∈ (updateStatus sampleStore sampleTask.id .downloading
           none sampleDlEnv.statusNow).tasks →
          sampleTaskDlg.id = sampleTask.id →
          sampleTaskDlg.status = .downloading ∧
          sampleTaskDlg.errorMessage = [])) :=
  claim_C2 [] sampleTask sampleDlEnv sampleUploadEnv sampleStore sampleTaskDlg

/-- Claim C7: when the task enters the download phase, AddMagnet succeeds and
cancellation wins the metadata wait, the whole trace is the single
downloading transition: the resulting store differs from the initial one
only in that task's status (downloading), error message (cleared) and
updated_at; progress and every other column of every row, and the whole
task_files table, are exactly as they were, and no write of the trace is a
Failed transition. -/
theorem claim_C7 (dataRoot : List Char) (task : Task) (env : DlEnv)
    (ue : UploadEnv) (s : Store)
    (h1 : task.status ≠ .completed) (h2 : task.status ≠ .downloaded)
    (h3 : task.status ≠ .uploading)
    (hok : env.addMagnet = .ok ()) (hc : env.metaCancelled = true) :
    handleTaskWrites dataRoot task env ue =
      [.updStatus task.id .downloading none env.statusNow] ∧
    (applyTrace s (handleTaskWrites dataRoot task env ue)).tasks =
      s.tasks.map (fun t => if t.id = task.id then
        { t with status := .downloading, errorMessage := [],
                 updatedAt := env.statusNow } else t) ∧
    (applyTrace s (handleTaskWrites dataRoot task env ue)).taskFiles =
      s.taskFiles ∧
    (∀ op ∈ handleTaskWrites dataRoot task env ue, isFailedWrite op = false) := by
  have htrace : handleTaskWrites dataRoot task env ue =
      [.updStatus task.id .downloading none env.statusNow] := by
    rcases task with ⟨id, m, st, _, _, _, _, _, _, _, _, _, _, _, _, _, _, _, _, _⟩
    cases st <;> first
      | (exact absurd rfl h1)
      | (exact absurd rfl h2)
      | (exact absurd rfl h3)
      | (simp [handleTaskWrites, hok, hc])
  refine ⟨htrace, ?_, ?_, ?_⟩
  · rw [htrace]
    rfl
  · rw [htrace]
    rfl
  · rw [htrace]
    intro op hop
    simp only [List.mem_singleton] at hop
    subst hop
    rfl

/-- Witness for claim C7 at a concrete input: sampleTask (downloading, id 1)
with the cancelled-before-metadata environment. -/
theorem claim_C7_witness :
    handleTaskWrites [] sampleTask sampleDlEnv sampleUploadEnv =
      [.updStatus sampleTask.id .downloading none sampleDlEnv.statusNow] ∧
    (applyTrace sampleStore
        (handleTaskWrites [] sampleTask sampleDlEnv sampleUploadEnv)).tasks =
      sampleStore.tasks.map (fun t => if t.id = sampleTask.id then
        { t with status := .downloading, errorMessage := [],
                 updatedAt := sampleDlEnv.statusNow } else t) ∧
    (applyTrace sampleStore
        (handleTaskWrites [] sampleTask sampleDlEnv sampleUploadEnv)).taskFiles =
      sampleStore.taskFiles ∧
    (∀ op ∈ handleTaskWrites [] sampleTask sampleDlEnv sampleUploadEnv,
       isFailedWrite op = false) :=
  claim_C7 [] sampleTask sampleDlEnv sampleUploadEnv sampleStore
    (by decide) (by decide) (by decide) rfl rfl

/-- Claim C4, counterexample: the speed computation is not well-defined for
every positive elapsed interval.  At elapsed = 1/2 second (positive, below
one) with 100 new bytes, int64(elapsed) is 0 and the Go division panics:
the model returns none, not a speed. -/
theorem claim_C4_counterexample :
    (0 : ℚ) < 1 / 2 ∧ (1 / 2 : ℚ) < 1 ∧ goSpeed 100 0 (1 / 2) = none := by
  have h0 : (0 : ℚ) < 1 / 2 := one_half_pos
  have h1 : (1 / 2 : ℚ) < 1 := one_half_lt_one
  refine ⟨h0, h1, ?_⟩
  have hf : ⌊(1 / 2 : ℚ)⌋ = 0 :=
    Int.floor_eq_zero_iff.mpr (Set.mem_Ico.mpr ⟨le_of_lt h0, h1⟩)
  unfold goSpeed
  rw [if_pos h0]
  show (if (⌊(1 / 2 : ℚ)⌋ : Int) = 0 then (none : Option Int)
        else some ((100 - 0 : Int).tdiv ⌊(1 / 2 : ℚ)⌋)) = none
  rw [hf]
  simp

/-- Claim C4, amended: on every tick, the persisted progress is
floor(bytes_completed * 100 / total_size) when total_size is positive
(bytes_completed being non-negative) and 0 otherwise; the persisted speed
is (bytes_completed - last_bytes) divided (Go integer division) by the
elapsed wall-clock delta truncated to whole seconds, which is defined for
every elapsed of at least one second; for elapsed strictly between 0 and 1
second the divisor truncates to zero and the division panics (none). -/
theorem claim_C4 (b l t : Int) (e : ℚ) :
    (0 ≤ b → 0 < t →
       goProgress b t = (b * 100).fdiv t ∧
       goProgress b t = ⌊((b * 100 : Int) : ℚ) / ((t : Int) : ℚ)⌋) ∧
    (t ≤ 0 → goProgress b t = 0) ∧
    (1 ≤ e → goSpeed b l e = some ((b - l).tdiv ⌊e⌋) ∧ 1 ≤ ⌊e⌋) ∧
    (0 < e → e < 1 → goSpeed b l e = none) := by
  refine ⟨?_, ?_, ?_, ?_⟩
  · intro hb ht
    have h100 : (0 : Int) ≤ b * 100 := by positivity
    have htd : (b * 100).tdiv t = (b * 100) / t :=
      Int.tdiv_eq_ediv h100 ht.le
    have hfd : (b * 100).fdiv t = (b * 100).tdiv t :=
      Int.fdiv_eq_tdiv h100 ht.le
    have hprog : goProgress b t = (b * 100).tdiv t := by
      simp [goProgress, if_pos ht]
    refine ⟨hprog.trans hfd.symm, ?_⟩
    have htn : ((t.toNat : Int)) = t := Int.toNat_of_nonneg ht.le
    have hcast : ((t.toNat : ℕ) : ℚ) = ((t : Int) : ℚ) := by exact_mod_cast htn
    have hfl := Rat.floor_intCast_div_natCast (b * 100) t.toNat
    rw [hcast, htn] at hfl
    rw [hprog, htd]
    exact hfl.symm
  · intro ht
    simp [goProgress, if_neg (by omega : ¬t > 0)]
  · intro he
    have hpos : (0 : ℚ) < e := lt_of_lt_of_le zero_lt_one he
    have hfl : 1 ≤ ⌊e⌋ := Int.le_floor.mpr (by exact_mod_cast he)
    refine ⟨?_, hfl⟩
    unfold goSpeed
    rw [if_pos hpos]
    show (if (⌊e⌋ : Int) = 0 then (none : Option Int)
          else some ((b - l).tdiv ⌊e⌋)) = some ((b - l).tdiv ⌊e⌋)
    rw [if_neg (by omega : ¬⌊e⌋ = 0)]
  · intro h0 h1
    have hf : ⌊e⌋ = 0 :=
      Int.floor_eq_zero_iff.mpr (Set.mem_Ico.mpr ⟨le_of_lt h0, h1⟩)
    unfold goSpeed
    rw [if_pos h0]
    show (if (⌊e⌋ : Int) = 0 then (none : Option Int)
          else some ((b - l).tdiv ⌊e⌋)) = none
    rw [hf]
    simp

/-- Witness for the amended claim C4 at concrete inputs: 700/2 bytes gives
progress 350 (as the floor), and 6 bytes over 2 whole seconds gives speed
6 tdiv 2. -/
theorem claim_C4_witness :
    goProgress 7 2 = ((7 : Int) * 100).fdiv 2 ∧
    goSpeed 10 4 2 = some (((10 : Int) - 4).tdiv 2) :=
  ⟨((claim_C4 7 4 2 (2 : ℚ)).1 (by decide) (by decide)).1,
   (((claim_C4 10 4 2 (2 : ℚ)).2.2.1 one_le_two).1).trans (by simp)⟩

theorem natToBE_length (base len v : Nat) : (natToBE base len v).length = len := by
  induction len generalizing v with
  | zero => rfl
  | succ k ih => simp [natToBE, ih]

theorem natToBE_lt (base len v : Nat) (hb : 0 < base) :
    ∀ d ∈ natToBE base len v, d < base := by
  induction len generalizing v with
  | zero => intro d hd; simp [natToBE] at hd
  | succ k ih =>
    intro d hd
    simp only [natToBE, List.mem_append, List.mem_singleton] at hd
    rcases hd with hd | rfl
    · exact ih _ d hd
    · exact Nat.mod_lt _ hb

theorem digitsToNat_append (base : Nat) (ds : List Nat) (d : Nat) :
    digitsToNat base (ds ++ [d]) = digitsToNat base ds * base + d := by
  simp [digitsToNat, List.foldl_append]

theorem digitsToNat_natToBE (base len v : Nat) (hb : 0 < base)
    (hv : v < base ^ len) : digitsToNat base (natToBE base len v) = v := by
  induction len generalizing v with
  | zero =>
    simp only [natToBE, digitsToNat, List.foldl_nil]
    simp only [pow_zero] at hv
    omega
  | succ k ih =>
    rw [natToBE, digitsToNat_append, ih (v / base)
      ((Nat.div_lt_iff_lt_mul hb).mpr (by rw [← pow_succ]; exact hv))]
    rw [Nat.mul_comm (v / base) base]
    exact Nat.div_add_mod v base

theorem natToBE_digitsToNat (base : Nat) (hb : 0 < base) (ds : List Nat)
    (hd : ∀ d ∈ ds, d < base) :
    natToBE base ds.length (digitsToNat base ds) = ds := by
  induction ds using List.reverseRecOn with
  | nil => rfl
  | append_singleton ds d ih =>
    have hdd : d < base := hd d (by simp)
    have hds : ∀ x ∈ ds, x < base := fun x hx => hd x (by simp [hx])
    have h1 : (digitsToNat base ds * base + d) / base = digitsToNat base ds := by
      rw [Nat.add_comm, Nat.mul_comm, Nat.add_mul_div_left _ _ hb,
        Nat.div_eq_of_lt hdd, Nat.zero_add]
    have h2 : (digitsToNat base ds * base + d) % base = d := by
      rw [Nat.add_comm, Nat.add_mul_mod_self_right, Nat.mod_eq_of_lt hdd]
    rw [List.length_append, List.length_singleton, digitsToNat_append, natToBE,
      h1, h2, ih hds]

theorem digitsToNat_lt (base : Nat) (_hb : 0 < base) (ds : List Nat)
    (hd : ∀ d ∈ ds, d < base) : digitsToNat base ds < base ^ ds.length := by
  induction ds using List.reverseRecOn with
  | nil => simp [digitsToNat]
  | append_singleton ds d ih =>
    have hdd : d < base := hd d (by simp)
    have hds : ∀ x ∈ ds, x < base := fun x hx => hd x (by simp [hx])
    have hD := ih hds
    rw [digitsToNat_append, List.length_append, List.length_singleton, pow_succ]
    calc digitsToNat base ds * base + d
        < (digitsToNat base ds + 1) * base := by
          rw [Nat.add_mul, Nat.one_mul]; omega
      _ ≤ base ^ ds.length * base := Nat.mul_le_mul_right base hD

/-- The sixteen facts about the lowercase hex digit characters needed to run
infoHashFromMagnet over an encoded hash: each decodes to its value (in either
case), is fixed by lower-casing, is restored by lower-casing its upper-case
form, is no whitespace in either case, and is not a slash. -/
theorem hexDigitChar_facts :
    ∀ d < 16, hexVal (hexDigitChar d) = some d ∧
      charLower (hexDigitChar d) = hexDigitChar d ∧
      isSpaceChar (hexDigitChar d) = false ∧
      hexVal (charUpper (hexDigitChar d)) = some d ∧
      charLower (charUpper (hexDigitChar d)) = hexDigitChar d ∧
      isSpaceChar (charUpper (hexDigitChar d)) = false ∧
      (hexDigitChar d == '/') = false := by decide

/-- The facts about the base32 alphabet characters needed to run
infoHashFromMagnet over an encoded hash: each decodes to its value, is fixed
by upper-casing, is no whitespace and is no padding sign. -/
theorem b32Char_facts :
    ∀ d < 32, b32Val (b32Char d) = some d ∧
      charUpper (b32Char d) = b32Char d ∧
      isSpaceChar (b32Char d) = false ∧
      (b32Char d == '=') = false := by decide

theorem traverseOpt_map (f : Char → Option Nat) (g : Nat → Char) (ds : List Nat)
    (h : ∀ d ∈ ds, f (g d) = some d) : traverseOpt f (ds.map g) = some ds := by
  induction ds with
  | nil => rfl
  | cons d ds ih =>
    have hd := h d (by simp)
    have hrest := ih (fun x hx => h x (by simp [hx]))
    simp [traverseOpt, hd, hrest]

theorem hexEncode_length (bytes : List Nat) :
    (hexEncode bytes).length = 2 * bytes.length := by
  induction bytes with
  | nil => rfl
  | cons b bs ih =>
    simp only [hexEncode, List.flatMap_cons] at ih ⊢
    simp only [List.length_append, List.length_cons, List.length_nil,
      List.length_map] at ih ⊢
    omega

theorem hexEncode_chars (bytes : List Nat) (hb : ∀ b ∈ bytes, b < 256) :
    ∀ c ∈ hexEncode bytes, ∃ d, d < 16 ∧ c = hexDigitChar d := by
  induction bytes with
  | nil => intro c hc; simp [hexEncode] at hc
  | cons b bs ih =>
    intro c hc
    have hb0 : b < 256 := hb b (by simp)
    simp only [hexEncode, List.flatMap_cons, List.cons_append, List.nil_append,
      List.mem_cons] at hc
    rcases hc with rfl | rfl | hc
    · exact ⟨b / 16, by omega, rfl⟩
    · exact ⟨b % 16, Nat.mod_lt _ (by omega), rfl⟩
    · exact ih (fun x hx => hb x (by simp [hx])) c hc

theorem goHexDecode_hexEncode_map (f : Char → Char)
    (hf : ∀ d, d < 16 → hexVal (f (hexDigitChar d)) = some d)
    (bytes : List Nat) (hb : ∀ b ∈ bytes, b < 256) :
    goHexDecode ((hexEncode bytes).map f) = some bytes := by
  induction bytes with
  | nil => rfl
  | cons b bs ih =>
    have hb0 : b < 256 := hb b (by simp)
    have h1 : b / 16 < 16 := by omega
    have h2 : b % 16 < 16 := by omega
    have hbs := ih (fun x hx => hb x (by simp [hx]))
    show goHexDecode (f (hexDigitChar (b / 16)) :: f (hexDigitChar (b % 16)) ::
      (hexEncode bs).map f) = some (b :: bs)
    rw [goHexDecode, hf _ h1, hf _ h2, hbs]
    show some ((b / 16 * 16 + b % 16) :: bs) = some (b :: bs)
    have : b / 16 * 16 + b % 16 = b := by omega
    rw [this]

theorem dropWhile_eq_self_of_all (p : Char → Bool) (cs : List Char)
    (h : ∀ c ∈ cs, p c = false) : cs.dropWhile p = cs := by
  cases cs with
  | nil => rfl
  | cons a l => rw [List.dropWhile_cons, h a (by simp)]; simp

theorem dropWhileRight_eq_self_of_all (p : Char → Bool) (cs : List Char)
    (h : ∀ c ∈ cs, p c = false) : dropWhileRight p cs = cs := by
  unfold dropWhileRight
  rw [dropWhile_eq_self_of_all p cs.reverse
    (fun c hc => h c (List.mem_reverse.mp hc)), List.reverse_reverse]

theorem goTrimSpace_eq_self_of_all (cs : List Char)
    (h : ∀ c ∈ cs, isSpaceChar c = false) : goTrimSpace cs = cs := by
  unfold goTrimSpace
  rw [dropWhile_eq_self_of_all _ cs h, dropWhileRight_eq_self_of_all _ cs h]

theorem goTrimRightEq_eq_self_of_all (cs : List Char)
    (h : ∀ c ∈ cs, (c == '=') = false) : goTrimRightEq cs = cs :=
  dropWhileRight_eq_self_of_all _ cs h

/-- Every character of the base32 rendering of a 20-byte hash is an alphabet
character of a 5-bit value. -/
theorem b32Encode20_chars (bytes : List Nat) :
    ∀ c ∈ b32Encode20 bytes, ∃ d, d < 32 ∧ c = b32Char d := by
  intro c hc
  unfold b32Encode20 at hc
  rw [List.mem_map] at hc
  obtain ⟨d, hd, rfl⟩ := hc
  exact ⟨d, natToBE_lt 32 32 _ (by omega) d hd, rfl⟩

theorem b32Encode20_length (bytes : List Nat) : (b32Encode20 bytes).length = 32 := by
  unfold b32Encode20
  rw [List.length_map, natToBE_length]

/-- Decoding the unpadded base32 rendering of a 20-byte hash recovers exactly
those 20 bytes. -/
theorem goBase32Decode_encode (bytes : List Nat) (hlen : bytes.length = 20)
    (hb : ∀ b ∈ bytes, b < 256) :
    goBase32Decode (b32Encode20 bytes) = some bytes := by
  have hV : digitsToNat 256 bytes < 32 ^ 32 := by
    have h1 := digitsToNat_lt 256 (by omega) bytes hb
    rw [hlen] at h1
    calc digitsToNat 256 bytes < 256 ^ 20 := h1
      _ = 32 ^ 32 := by norm_num
  have hvals : ∀ d ∈ natToBE 32 32 (digitsToNat 256 bytes), d < 32 :=
    natToBE_lt 32 32 _ (by omega)
  have htrav : traverseOpt b32Val (b32Encode20 bytes) =
      some (natToBE 32 32 (digitsToNat 256 bytes)) :=
    traverseOpt_map b32Val b32Char _
      (fun d hd => (b32Char_facts d (hvals d hd)).1)
  unfold goBase32Decode
  rw [if_neg (by rw [b32Encode20_length]; decide), htrav]
  rw [b32Encode20_length]
  show some (natToBE 256 (5 * 32 / 8)
    (digitsToNat 32 (natToBE 32 32 (digitsToNat 256 bytes)) / 2 ^ (5 * 32 % 8))) =
      some bytes
  rw [digitsToNat_natToBE 32 32 _ (by omega) hV]
  norm_num
  conv_lhs => rw [show (20 : ℕ) = bytes.length from hlen.symm]
  rw [natToBE_digitsToNat 256 (by omega) bytes hb]

/-- Lower-casing fixes the urn:btih: tag. -/
theorem goToLower_urnBtih : goToLower urnBtih = urnBtih := by decide

/-- On an xt value of the form urn:btih: followed by an already-trimmed,
non-empty candidate, the xt loop body reduces to the hash dispatch: the
40-hex test first, then the base32 attempt with its 20-byte check. -/
theorem infoHashFromXt_urn (cs : List Char) (hs : goTrimSpace cs = cs)
    (hne : cs ≠ []) :
    infoHashFromXt (urnBtih ++ cs) =
      if cs.length = 40 ∧ (goHexDecode cs).isSome then some (goToLower cs)
      else
        match goBase32Decode (goTrimRightEq (goToUpper cs)) with
        | some decoded =>
          if decoded.length = 20 then some (hexEncode decoded) else none
        | none => none := by
  have h1 : goToLower (urnBtih ++ cs) = urnBtih ++ goToLower cs := by
    unfold goToLower
    rw [List.map_append]
    rw [show List.map charLower urnBtih = urnBtih from goToLower_urnBtih]
  have h2 : goHasPfx urnBtih (urnBtih ++ goToLower cs) = true := by
    unfold goHasPfx
    exact List.isPrefixOf_iff_prefix.mpr (List.prefix_append _ _)
  unfold infoHashFromXt
  rw [h1, h2]
  simp only [if_true]
  rw [show (urnBtih ++ cs).drop urnBtih.length = cs from List.drop_left _ _, hs]
  rw [if_neg hne]
  by_cases hP : cs.length = 40 ∧ (goHexDecode cs).isSome
  · rw [if_pos hP, if_pos hP]
  · rw [if_neg hP, if_neg hP]

/-- When no xt value carries the urn:btih: tag, the loop falls through to the
btih-not-present error. -/
theorem infoHashFromXts_none (xts : List (List Char))
    (h : ∀ xt ∈ xts, goHasPfx urnBtih (goToLower xt) = false) :
    infoHashFromXts xts = none := by
  induction xts with
  | nil => rfl
  | cons xt rest ih =>
    have hxt : infoHashFromXt xt = none := by
      unfold infoHashFromXt
      rw [h xt (by simp)]
      simp
    rw [infoHashFromXts, hxt]
    exact ih (fun y hy => h y (by simp [hy]))

/-- Claim C3: for any 20-byte hash, the magnet parser accepts the xt value
urn:btih: followed by its lowercase-hex rendering, its uppercase-hex
rendering or its unpadded base32 rendering, and returns the identical
lowercase-hex string in all three cases (the round trip); a magnet URI none
of whose xt values carries the btih tag is an error; and a candidate whose
base32 decoding does not yield exactly 20 bytes is rejected. -/
theorem claim_C3 (bytes : List Nat) (hlen : bytes.length = 20)
    (hb : ∀ b ∈ bytes, b < 256) :
    infoHashFromMagnet magnetScheme [urnBtih ++ hexEncode bytes] =
      some (hexEncode bytes) ∧
    infoHashFromMagnet magnetScheme [urnBtih ++ goToUpper (hexEncode bytes)] =
      some (hexEncode bytes) ∧
    infoHashFromMagnet magnetScheme [urnBtih ++ b32Encode20 bytes] =
      some (hexEncode bytes) ∧
    (∀ xts, (∀ xt ∈ xts, goHasPfx urnBtih (goToLower xt) = false) →
       infoHashFromMagnet magnetScheme xts = none) ∧
    (∀ cs ds, goTrimSpace cs = cs → cs ≠ [] →
       ¬(cs.length = 40 ∧ (goHexDecode cs).isSome) →
       goBase32Decode (goTrimRightEq (goToUpper cs)) = some ds →
       ds.length ≠ 20 → infoHashFromXt (urnBtih ++ cs) = none) := by
  have hchars := hexEncode_chars bytes hb
  have hlen40 : (hexEncode bytes).length = 40 := by
    rw [hexEncode_length, hlen]
  have hnospace : ∀ c ∈ hexEncode bytes, isSpaceChar c = false := by
    intro c hc
    obtain ⟨d, hd, rfl⟩ := hchars c hc
    exact (hexDigitChar_facts d hd).2.2.1
  have htrim : goTrimSpace (hexEncode bytes) = hexEncode bytes :=
    goTrimSpace_eq_self_of_all _ hnospace
  have hne : hexEncode bytes ≠ [] := by
    intro hnil
    rw [hnil] at hlen40
    simp at hlen40
  have hlower : goToLower (hexEncode bytes) = hexEncode bytes := by
    unfold goToLower
    calc (hexEncode bytes).map charLower
        = (hexEncode bytes).map (fun c => c) := List.map_congr_left (by
          intro c hc
          obtain ⟨d, hd, rfl⟩ := hchars c hc
          exact (hexDigitChar_facts d hd).2.1)
      _ = hexEncode bytes := List.map_id _
  refine ⟨?_, ?_, ?_, ?_, ?_⟩
  · -- lowercase hex rendering
    have hdec : (goHexDecode (hexEncode bytes)).isSome := by
      have h0 := goHexDecode_hexEncode_map (fun c => c) (fun d hd =>
        (hexDigitChar_facts d hd).1) bytes hb
      simp only [List.map_id'] at h0
      rw [h0]
      rfl
    unfold infoHashFromMagnet
    rw [if_pos rfl, infoHashFromXts,
      infoHashFromXt_urn _ htrim hne, if_pos ⟨hlen40, hdec⟩, hlower]
  · -- uppercase hex rendering
    set U := goToUpper (hexEncode bytes) with hU
    have hUmap : U = (hexEncode bytes).map charUpper := rfl
    have hlenU : U.length = 40 := by rw [hUmap, List.length_map, hlen40]
    have hnospaceU : ∀ c ∈ U, isSpaceChar c = false := by
      intro c hc
      rw [hUmap, List.mem_map] at hc
      obtain ⟨c0, hc0, rfl⟩ := hc
      obtain ⟨d, hd, rfl⟩ := hchars c0 hc0
      exact (hexDigitChar_facts d hd).2.2.2.2.2.1
    have htrimU : goTrimSpace U = U := goTrimSpace_eq_self_of_all _ hnospaceU
    have hneU : U ≠ [] := by
      intro hnil
      rw [hnil] at hlenU
      simp at hlenU
    have hdecU : (goHexDecode U).isSome := by
      rw [hUmap, goHexDecode_hexEncode_map charUpper (fun d hd =>
        (hexDigitChar_facts d hd).2.2.2.1) bytes hb]
      rfl
    have hlowerU : goToLower U = hexEncode bytes := by
      rw [hUmap]
      unfold goToLower
      rw [List.map_map]
      calc (hexEncode bytes).map (charLower ∘ charUpper)
          = (hexEncode bytes).map (fun c => c) := List.map_congr_left (by
            intro c hc
            obtain ⟨d, hd, rfl⟩ := hchars c hc
            exact (hexDigitChar_facts d hd).2.2.2.2.1)
        _ = hexEncode bytes := List.map_id _
    unfold infoHashFromMagnet
    rw [if_pos rfl, infoHashFromXts,
      infoHashFromXt_urn _ htrimU hneU, if_pos ⟨hlenU, hdecU⟩, hlowerU]
  · -- base32 rendering
    have hcharsB := b32Encode20_chars bytes
    have hlenB := b32Encode20_length bytes
    have hnospaceB : ∀ c ∈ b32Encode20 bytes, isSpaceChar c = false := by
      intro c hc
      obtain ⟨d, hd, rfl⟩ := hcharsB c hc
      exact (b32Char_facts d hd).2.2.1
    have htrimB : goTrimSpace (b32Encode20 bytes) = b32Encode20 bytes :=
      goTrimSpace_eq_self_of_all _ hnospaceB
    have hneB : b32Encode20 bytes ≠ [] := by
      intro hnil
      rw [hnil] at hlenB
      simp at hlenB
    have hupperB : goToUpper (b32Encode20 bytes) = b32Encode20 bytes := by
      unfold goToUpper
      calc (b32Encode20 bytes).map charUpper
          = (b32Encode20 bytes).map (fun c => c) := List.map_congr_left (by
            intro c hc
            obtain ⟨d, hd, rfl⟩ := hcharsB c hc
            exact (b32Char_facts d hd).2.1)
        _ = b32Encode20 bytes := List.map_id _
    have heqB : goTrimRightEq (b32Encode20 bytes) = b32Encode20 bytes := by
      refine goTrimRightEq_eq_self_of_all _ ?_
      intro c hc
      obtain ⟨d, hd, rfl⟩ := hcharsB c hc
      exact (b32Char_facts d hd).2.2.2
    have hnot40 : ¬((b32Encode20 bytes).length = 40 ∧
        (goHexDecode (b32Encode20 bytes)).isSome) := by
      rw [hlenB]
      rintro ⟨h40, -⟩
      omega
    unfold infoHashFromMagnet
    rw [if_pos rfl, infoHashFromXts, infoHashFromXt_urn _ htrimB hneB,
      if_neg hnot40, hupperB, heqB, goBase32Decode_encode bytes hlen hb]
    simp [hlen]
  · -- no btih xt value present
    intro xts h
    unfold infoHashFromMagnet
    rw [if_pos rfl]
    exact infoHashFromXts_none xts h
  · -- base32 of the wrong byte count is rejected
    intro cs ds hsp hcne hnot hdec hds
    rw [infoHashFromXt_urn cs hsp hcne, if_neg hnot, hdec]
    simp [hds]

/-- Witness for claim C3 at a concrete input: the 20-byte hash
00 01 ... 13 in hex and base32 renderings, a magnet with only a sha1 xt
value, and a base32 candidate of 16 characters (10 bytes, rejected). -/
theorem claim_C3_witness :
    infoHashFromMagnet magnetScheme
      [urnBtih ++ hexEncode (List.range 20)] =
        some (hexEncode (List.range 20)) ∧
    infoHashFromMagnet magnetScheme
      [urnBtih ++ goToUpper (hexEncode (List.range 20))] =
        some (hexEncode (List.range 20)) ∧
    infoHashFromMagnet magnetScheme
      [urnBtih ++ b32Encode20 (List.range 20)] =
        some (hexEncode (List.range 20)) ∧
    infoHashFromMagnet magnetScheme ["urn:sha1:AAAA".toList] = none ∧
    infoHashFromXt (urnBtih ++ "AAAAAAAAAAAAAAAA".toList) = none := by
  have h := claim_C3 (List.range 20) (by decide) (by decide)
  refine ⟨h.1, h.2.1, h.2.2.1, ?_, ?_⟩
  · exact h.2.2.2.1 ["urn:sha1:AAAA".toList] (by decide)
  · exact h.2.2.2.2 "AAAAAAAAAAAAAAAA".toList (List.replicate 10 0)
      (by decide) (by decide) (by decide) (by decide) (by decide)

theorem head?_dropWhile_false (p : Char → Bool) (l : List Char) :
    ∀ c, (l.dropWhile p).head? = some c → p c = false := by
  induction l with
  | nil => intro c hc; simp at hc
  | cons a l ih =>
    intro c hc
    rw [List.dropWhile_cons] at hc
    by_cases hpa : p a = true
    · rw [if_pos hpa] at hc
      exact ih c hc
    · rw [if_neg hpa] at hc
      simp only [List.head?_cons, Option.some.injEq] at hc
      rw [← hc]
      exact Bool.not_eq_true _ ▸ hpa

theorem dropWhileRight_isPfx (p : Char → Bool) (l : List Char) :
    dropWhileRight p l <+: l := by
  unfold dropWhileRight
  have h : l.reverse.dropWhile p <:+ l.reverse := List.dropWhile_suffix p
  have h2 := List.reverse_prefix.mpr h
  rwa [List.reverse_reverse] at h2

theorem pfx_head?_eq {l₁ l₂ : List Char} (h : l₁ <+: l₂) (hne : l₁ ≠ []) :
    l₂.head? = l₁.head? := by
  obtain ⟨t, rfl⟩ := h
  cases l₁ with
  | nil => exact absurd rfl hne
  | cons a l => rfl

theorem goTrimSlash_head?_ne (cs : List Char) :
    ∀ c, (goTrimSlash cs).head? = some c → (c == '/') = false := by
  intro c hc
  unfold goTrimSlash at hc
  by_cases hne : dropWhileRight (· == '/') (cs.dropWhile (· == '/')) = []
  · rw [hne] at hc
    simp at hc
  · have hp := dropWhileRight_isPfx (· == '/') (cs.dropWhile (· == '/'))
    have hh := pfx_head?_eq hp hne
    exact head?_dropWhile_false _ cs c (hh.trans hc)

theorem natDecimal_ne_nil (n : Nat) : natDecimal n ≠ [] := by
  unfold natDecimal
  split
  · simp
  · simp

theorem natDecimal_chars (n : Nat) :
    ∀ c ∈ natDecimal n, ∃ d, d < 10 ∧ c = hexDigitChar d := by
  induction n using Nat.strong_induction_on with
  | _ n ih =>
    intro c hc
    unfold natDecimal at hc
    split at hc
    · next h =>
      simp only [List.mem_singleton] at hc
      exact ⟨n, h, hc⟩
    · next h =>
      rw [List.mem_append] at hc
      rcases hc with hc | hc
      · exact ih (n / 10) (Nat.div_lt_self (by omega) (by omega)) c hc
      · simp only [List.mem_singleton] at hc
        exact ⟨n % 10, Nat.mod_lt _ (by omega), hc⟩

theorem intDecimal_ne_nil (i : Int) : intDecimal i ≠ [] := by
  unfold intDecimal
  split
  · simp
  · exact natDecimal_ne_nil _

theorem intDecimal_chars_ne_slash (i : Int) :
    ∀ c ∈ intDecimal i, (c == '/') = false := by
  intro c hc
  unfold intDecimal at hc
  have hdig : ∀ m : Nat, ∀ c ∈ natDecimal m, (c == '/') = false := by
    intro m c hc
    obtain ⟨d, hd, rfl⟩ := natDecimal_chars m c hc
    exact (hexDigitChar_facts d (by omega)).2.2.2.2.2.2
  split at hc
  · rcases List.mem_cons.mp hc with rfl | hc
    · decide
    · exact hdig _ c hc
  · exact hdig _ c hc

theorem taskSeg_ne_nil (id : Int) : taskSeg id ≠ [] := by
  show ('t' :: ("ask-".toList ++ intDecimal id)) ≠ []
  simp

theorem taskSeg_head? (id : Int) : (taskSeg id).head? = some 't' := rfl

theorem taskSeg_getLast? (id : Int) :
    ∃ c, (taskSeg id).getLast? = some c ∧ (c == '/') = false := by
  obtain ⟨c, hc⟩ : ∃ c, (intDecimal id).getLast? = some c := by
    cases h : (intDecimal id).getLast? with
    | none => exact absurd (List.getLast?_eq_none_iff.mp h) (intDecimal_ne_nil id)
    | some c => exact ⟨c, rfl⟩
  refine ⟨c, ?_, ?_⟩
  · unfold taskSeg
    rw [List.getLast?_append, hc]
    rfl
  · exact intDecimal_chars_ne_slash id c (List.mem_of_getLast?_eq_some hc)

theorem goTrimSlash_eq_self (l : List Char)
    (h1 : ∀ c, l.head? = some c → (c == '/') = false)
    (h2 : ∀ c, l.getLast? = some c → (c == '/') = false) :
    goTrimSlash l = l := by
  unfold goTrimSlash
  have hd : l.dropWhile (· == '/') = l := by
    cases l with
    | nil => rfl
    | cons a l =>
      rw [List.dropWhile_cons, h1 a rfl]
      simp
  rw [hd]
  unfold dropWhileRight
  have hrev : l.reverse.dropWhile (· == '/') = l.reverse := by
    cases hr : l.reverse with
    | nil => rfl
    | cons a r =>
      have ha : l.getLast? = some a := by
        rw [← List.head?_reverse, hr]
        rfl
      rw [List.dropWhile_cons, h2 a ha]
      simp
  rw [hrev, List.reverse_reverse]

theorem effectiveKeyPfx_ne_nil (cfg : List Char) (id : Int) :
    effectiveKeyPfx cfg id ≠ [] := by
  show (if goTrimSlash cfg = [] then taskSeg id
        else goTrimSlash cfg ++ '/' :: taskSeg id) ≠ []
  split
  · exact taskSeg_ne_nil id
  · simp

theorem effectiveKeyPfx_head?_ne (cfg : List Char) (id : Int) :
    ∀ c, (effectiveKeyPfx cfg id).head? = some c → (c == '/') = false := by
  intro c hc
  have hc : (if goTrimSlash cfg = [] then taskSeg id
      else goTrimSlash cfg ++ '/' :: taskSeg id).head? = some c := hc
  split at hc
  · rw [taskSeg_head? id] at hc
    simp only [Option.some.injEq] at hc
    rw [← hc]
    decide
  · next hne =>
    obtain ⟨a, p', hap⟩ : ∃ a p', goTrimSlash cfg = a :: p' := by
      cases h : goTrimSlash cfg with
      | nil => exact absurd h hne
      | cons a p' => exact ⟨a, p', rfl⟩
    rw [hap, List.cons_append, List.head?_cons] at hc
    rw [← Option.some.inj hc]
    exact goTrimSlash_head?_ne cfg a (by rw [hap]; rfl)

theorem effectiveKeyPfx_getLast?_ne (cfg : List Char) (id : Int) :
    ∀ c, (effectiveKeyPfx cfg id).getLast? = some c → (c == '/') = false := by
  intro c hc
  obtain ⟨c0, hc0, hcs⟩ := taskSeg_getLast? id
  have hc : (if goTrimSlash cfg = [] then taskSeg id
      else goTrimSlash cfg ++ '/' :: taskSeg id).getLast? = some c := hc
  split at hc
  · rw [hc0] at hc
    simp only [Option.some.injEq] at hc
    rw [← hc]
    exact hcs
  · rw [show ('/' :: taskSeg id : List Char) = ['/'] ++ taskSeg id from rfl,
      List.getLast?_append, List.getLast?_append, hc0] at hc
    have hc' : some c0 = some c := hc
    exact (Option.some.inj hc') ▸ hcs

/-- Claim C6: UploadDirectory returns s3://bucket/<prefix trimmed of
slashes> for every non-degenerate prefix; the upload phase passes the key
prefix <configured trimmed of slashes>/task-<id> (just task-<id> when the
trimmed configured prefix is empty); and since that effective prefix has no
leading or trailing slash, the composition gives every upload-phase task a
remote location of exactly s3://bucket/<trimmed configured prefix>/task-<id>
(or s3://bucket/task-<id>). -/
theorem claim_C6 (bucket cfg keyPfx : List Char) (id pid : Int)
    (h : goTrimSlash keyPfx ≠ []) :
    uploadDirectoryUrl bucket keyPfx pid =
      "s3://".toList ++ bucket ++ '/' :: goTrimSlash keyPfx ∧
    uploadDirectoryUrl bucket (effectiveKeyPfx cfg id) pid =
      "s3://".toList ++ bucket ++ '/' :: effectiveKeyPfx cfg id ∧
    effectiveKeyPfx cfg id =
      (if goTrimSlash cfg = [] then taskSeg id
       else goTrimSlash cfg ++ '/' :: taskSeg id) := by
  have htrim : goTrimSlash (effectiveKeyPfx cfg id) = effectiveKeyPfx cfg id :=
    goTrimSlash_eq_self _ (effectiveKeyPfx_head?_ne cfg id)
      (effectiveKeyPfx_getLast?_ne cfg id)
  refine ⟨?_, ?_, rfl⟩
  · show ("s3://".toList ++ bucket ++ '/' ::
      (if goTrimSlash keyPfx = [] then "task-".toList ++ intDecimal pid
       else goTrimSlash keyPfx)) =
      "s3://".toList ++ bucket ++ '/' :: goTrimSlash keyPfx
    rw [if_neg h]
  · show ("s3://".toList ++ bucket ++ '/' ::
      (if goTrimSlash (effectiveKeyPfx cfg id) = []
       then "task-".toList ++ intDecimal pid
       else goTrimSlash (effectiveKeyPfx cfg id))) =
      "s3://".toList ++ bucket ++ '/' :: effectiveKeyPfx cfg id
    rw [htrim, if_neg (effectiveKeyPfx_ne_nil cfg id)]

/-- Witness for claim C6 at a concrete input: bucket b, configured prefix
/magnet-tasks/, task id 7, process id 999. -/
theorem claim_C6_witness :
    uploadDirectoryUrl ("b".toList) ("a//b".toList) 999 =
      "s3://".toList ++ "b".toList ++ '/' :: goTrimSlash ("a//b".toList) ∧
    uploadDirectoryUrl ("b".toList)
        (effectiveKeyPfx ("/magnet-tasks/".toList) 7) 999 =
      "s3://".toList ++ "b".toList ++ '/' ::
        effectiveKeyPfx ("/magnet-tasks/".toList) 7 ∧
    effectiveKeyPfx ("/magnet-tasks/".toList) 7 =
      (if goTrimSlash ("/magnet-tasks/".toList) = [] then taskSeg 7
       else goTrimSlash ("/magnet-tasks/".toList) ++ '/' :: taskSeg 7) :=
  claim_C6 ("b".toList) ("/magnet-tasks/".toList) ("a//b".toList) 7 999
    (by decide)

end Magnet
